import Mathlib

/-!
Shallow embedding of the ARAP ADMM fixed-vertex solver
(`src/demo/admmfixedsolver.cc`) over the real numbers, together with
theorems settling the specification claims about it.

Matrices are embedded as real-valued functions; Eigen sparse `coeffRef +=`
accumulation becomes summation of the per-edge contribution terms, and
Eigen `coeffRef =` assignment becomes a last-write-wins conditional.
External collaborators (the sparse linear solve and the `igl::polar_svd3x3`
closest-rotation kernel) are abstracted as parameters constrained by the
contracts the spec assigns to them.
-/

noncomputable section

namespace ArapAdmm

/-- A 3-component real vector (one coordinate row of an Eigen matrix). -/
abbrev Vec3 := Fin 3 → ℝ

/-- A 3x3 real matrix (`Eigen::Matrix3d`). -/
abbrev Mat3 := Matrix (Fin 3) (Fin 3) ℝ

/-- Squared Euclidean norm of a 3-vector (`Eigen squaredNorm`). -/
def sqnorm3 (u : Vec3) : ℝ := ∑ k : Fin 3, u k ^ 2

/-- Cross product of two 3-vectors (`Eigen cross`). -/
def cross3 (u w : Vec3) : Vec3 := fun k =>
  if (k : ℕ) = 0 then u 1 * w 2 - u 2 * w 1
  else if (k : ℕ) = 1 then u 2 * w 0 - u 0 * w 2
  else u 0 * w 1 - u 1 * w 0

/-- Euclidean norm of a 3-vector (`Eigen norm`). -/
def norm3 (u : Vec3) : ℝ := Real.sqrt (sqnorm3 u)

/-- Squared Frobenius norm of a 3x3 matrix (`Eigen squaredNorm` on `Matrix3d`). -/
def sqFrobM (A : Mat3) : ℝ := ∑ i : Fin 3, ∑ j : Fin 3, A i j ^ 2

/-- `kMatrixDiffThreshold` from the source. -/
def kMatrixDiffThreshold : ℝ := 1e-6

/-- `kEnergyTolerance` from the source. -/
def kEnergyTolerance : ℝ := 0.02

/-- Index of the first occurrence of `v` in a list (total version of
`Eigen`-side index bookkeeping; 0 on a miss, only used on members). -/
def posIn : List ℕ → ℕ → ℕ
  | [], _ => 0
  | a :: rest, v => if v = a then 0 else posIn rest v + 1

/-- Vertex classification tag, mirroring `VertexType` of the solver. -/
inductive VertexType where
  | Free : VertexType
  | Fixed : VertexType
deriving DecidableEq

/-- Modelled from the spec: the base `Solver` class (not under `src/`) keeps
the free vertices in the compact order induced by vertex index, i.e. the
vertices of `0..n-1` that are not fixed, in increasing order (`free_`). -/
def freeList (n : ℕ) (fixed : List ℕ) : List ℕ :=
  (List.range n).filter (fun v => decide (v ∉ fixed))

/-- Modelled from the spec: the classification tag of `vertex_info_`:
a vertex is `Fixed` exactly when it occurs in the fixed-index list. -/
def vtype (fixed : List ℕ) (v : ℕ) : VertexType :=
  if v ∈ fixed then VertexType.Fixed else VertexType.Free

/-- Modelled from the spec: `vertex_info_[v].pos`, the index of `v` inside the
compact free ordering (if free) or inside the fixed-index list (if fixed). -/
def vpos (n : ℕ) (fixed : List ℕ) (v : ℕ) : ℕ :=
  if v ∈ fixed then posIn fixed v else posIn (freeList n fixed) v

/-- Modelled from the spec: `GetMatrixVariablePos(v, k)`: the column of the
`k`-th rotation unknown of vertex `v`, laid out after the `freeNum` position
unknowns as documented in the source comments (`free_num + 3 * i + k`). -/
def rcCol (freeNum v : ℕ) (k : Fin 3) : ℕ := freeNum + 3 * v + (k : ℕ)

/-- `edge_map[e][0]` / `index_map[e][0]` of the source:
the tables `{1,2},{2,0},{0,1}` indexed by `e`. -/
def edgeFirst (e : Fin 3) : Fin 3 :=
  if (e : ℕ) = 0 then 1 else if (e : ℕ) = 1 then 2 else 0

/-- `edge_map[e][1]` / `index_map[e][1]` of the source. -/
def edgeSecond (e : Fin 3) : Fin 3 :=
  if (e : ℕ) = 0 then 2 else if (e : ℕ) = 1 then 0 else 1

/-- The immutable mesh input of the solver: vertex count, rest positions,
triangle list and fixed-vertex index list. -/
structure MeshData where
  n : ℕ
  V : ℕ → Vec3
  faces : List (Fin 3 → ℕ)
  fixed : List ℕ

/-- Number of free vertices (`free_num`). -/
def MeshData.freeNum (d : MeshData) : ℕ := (freeList d.n d.fixed).length

/-- `AdmmFixedSolver::ComputeCotangent`: per-vertex cotangents of one face,
computed from squared edge lengths and the cross-product area. -/
def computeCotangent (d : MeshData) (F : Fin 3 → ℕ) : Fin 3 → ℝ :=
  let A := d.V (F 0)
  let B := d.V (F 1)
  let C := d.V (F 2)
  let a_squared := sqnorm3 (B - C)
  let b_squared := sqnorm3 (C - A)
  let c_squared := sqnorm3 (A - B)
  let area := norm3 (cross3 (B - A) (C - A)) / 2
  let four_area := 4 * area
  fun k =>
    if (k : ℕ) = 0 then (b_squared + c_squared - a_squared) / four_area
    else if (k : ℕ) = 1 then (c_squared + a_squared - b_squared) / four_area
    else (a_squared + b_squared - c_squared) / four_area

/-- The four `coeffRef` updates one face performs on `weight_` for edge slot
`e`, evaluated at entry `(i, j)`. -/
def weightFaceContrib (d : MeshData) (F : Fin 3 → ℕ) (i j : ℕ) : ℝ :=
  ∑ e : Fin 3,
    ((if i = F (edgeFirst e) ∧ j = F (edgeSecond e) then computeCotangent d F e / 2 else 0)
      + (if i = F (edgeSecond e) ∧ j = F (edgeFirst e) then computeCotangent d F e / 2 else 0)
      - (if i = F (edgeFirst e) ∧ j = F (edgeFirst e) then computeCotangent d F e / 2 else 0)
      - (if i = F (edgeSecond e) ∧ j = F (edgeSecond e) then computeCotangent d F e / 2 else 0))

/-- The weight matrix `weight_` assembled by `AdmmFixedSolver::Precompute`. -/
def weightMatrix (d : MeshData) (i j : ℕ) : ℝ :=
  (d.faces.map (fun F => weightFaceContrib d F i j)).sum

/-- One edge's `coeffRef` contributions to `M_` in the direct-gradient
assembly (`USE_LINEAR_SOLVE_1` block of `Precompute`), at entry `(i, j)`. -/
def edgeContribM1 (d : MeshData) (W : ℕ → ℕ → ℝ) (first second i j : ℕ) : ℝ :=
  let w := W first second
  let v : Vec3 := fun k => d.V first k - d.V second k
  let fp := vpos d.n d.fixed first
  let sp := vpos d.n d.fixed second
  (if vtype d.fixed first = VertexType.Free then
      (if i = fp ∧ j = fp then 2 * w else 0)
      + (if vtype d.fixed second = VertexType.Free then
          (if i = fp ∧ j = sp then -(2 * w) else 0) else 0)
      + ∑ k : Fin 3, (if i = fp ∧ j = rcCol d.freeNum first k then -(2 * w * v k) else 0)
    else 0)
  + (if vtype d.fixed second = VertexType.Free then
      (if i = sp ∧ j = sp then 2 * w else 0)
      + (if vtype d.fixed first = VertexType.Free then
          (if i = sp ∧ j = fp then -(2 * w) else 0) else 0)
      + ∑ k : Fin 3, (if i = sp ∧ j = rcCol d.freeNum first k then 2 * w * v k else 0)
    else 0)
  + (∑ k : Fin 3, ∑ l : Fin 3,
      (if i = rcCol d.freeNum first k ∧ j = rcCol d.freeNum first l
        then v k * v l * w * 2 else 0))
  + (if vtype d.fixed first = VertexType.Free then
      ∑ k : Fin 3, (if i = rcCol d.freeNum first k ∧ j = fp then -(w * 2 * v k) else 0)
    else 0)
  + (if vtype d.fixed second = VertexType.Free then
      ∑ k : Fin 3, (if i = rcCol d.freeNum first k ∧ j = sp then w * 2 * v k else 0)
    else 0)

/-- The direct-gradient system matrix (`USE_LINEAR_SOLVE_1` assembly of `M_`):
the `rho` diagonal on the rotation block plus all per-face edge contributions. -/
def assembleM1 (d : MeshData) (W : ℕ → ℕ → ℝ) (rho : ℝ) (i j : ℕ) : ℝ :=
  (∑ t ∈ Finset.range (3 * d.n),
    (if i = d.freeNum + t ∧ j = d.freeNum + t then rho else 0))
  + (d.faces.map (fun F =>
      ∑ e : Fin 3, edgeContribM1 d W (F (edgeFirst e)) (F (edgeSecond e)) i j)).sum

/-- The single sparse row `A` built for one edge in the normal-equations
assembly (`USE_LINEAR_SOLVE_2`), with Eigen's last-write-wins `coeffRef =`
semantics: the rotation columns are written last, then the `second` entry,
then the `first` entry. -/
def aRow (d : MeshData) (first second i : ℕ) : ℝ :=
  let v : Vec3 := fun k => d.V first k - d.V second k
  if i = rcCol d.freeNum first 0 then -(v 0)
  else if i = rcCol d.freeNum first 1 then -(v 1)
  else if i = rcCol d.freeNum first 2 then -(v 2)
  else if vtype d.fixed second = VertexType.Free ∧ i = vpos d.n d.fixed second then -1
  else if vtype d.fixed first = VertexType.Free ∧ i = vpos d.n d.fixed first then 1
  else 0

/-- One edge's `2 * weight * Aᵀ A` term of the normal-equations assembly. -/
def edgeContribM2 (d : MeshData) (W : ℕ → ℕ → ℝ) (first second i j : ℕ) : ℝ :=
  2 * W first second * aRow d first second i * aRow d first second j

/-- One vertex's `rho * Aᵀ A` rotation-constraint term of the
normal-equations assembly. -/
def rotContribM2 (d : MeshData) (rho : ℝ) (v i j : ℕ) : ℝ :=
  ∑ r : Fin 3, (if i = rcCol d.freeNum v r ∧ j = rcCol d.freeNum v r then rho else 0)

/-- The normal-equations system matrix (`USE_LINEAR_SOLVE_2` assembly of
`M_`): `sum 2 w Aᵀ A` over the edge rows plus `rho Aᵀ A` over the rotation
rows. -/
def assembleM2 (d : MeshData) (W : ℕ → ℕ → ℝ) (rho : ℝ) (i j : ℕ) : ℝ :=
  (d.faces.map (fun F =>
    ∑ e : Fin 3, edgeContribM2 d W (F (edgeFirst e)) (F (edgeSecond e)) i j)).sum
  + ∑ v ∈ Finset.range d.n, rotContribM2 d rho v i j

/-- Exact membership of the rotation group `SO(3)`:
orthogonal with determinant one. -/
def SO3 (M : Mat3) : Prop := M.transpose * M = 1 ∧ M.det = 1

/-- `AdmmFixedSolver::IsSO3`: the tolerance test the code applies to each
projected rotation, true exactly when neither failure branch fires. -/
def IsSO3 (S : Mat3) : Prop :=
  sqFrobM (S * S.transpose - 1) ≤ kMatrixDiffThreshold
    ∧ |S.det - 1| ≤ kMatrixDiffThreshold

/-- Modelled from the spec: the contract of the external
`igl::polar_svd3x3` closest-rotation primitive at one input — the output is a
proper rotation and is at least as close to the input (in squared Frobenius
distance) as any other proper rotation. -/
def IsClosestRotation (S M : Mat3) : Prop :=
  SO3 S ∧ ∀ Q : Mat3, SO3 Q → sqFrobM (S - M) ≤ sqFrobM (Q - M)

/-- The per-frame target-position matrix handed to `SolvePreprocess`
(`fixed_vertices`): a row count plus the rows themselves. -/
structure TargetData where
  rows : ℕ
  row : ℕ → Vec3

/-- The mutable state of an `AdmmFixedSolver` instance: the construction-time
and precomputed fields together with the per-frame fields. -/
structure SolverState where
  n : ℕ
  vertices_ : ℕ → Vec3
  faces_ : List (Fin 3 → ℕ)
  fixed_ : List ℕ
  rho_ : ℝ
  weight_ : ℕ → ℕ → ℝ
  M_ : ℕ → ℕ → ℝ
  fixed_vertices_ : TargetData
  vertices_updated_ : ℕ → Vec3
  rotations_ : ℕ → Mat3
  S_ : ℕ → Mat3
  T_ : ℕ → Mat3

/-- Number of free vertices of a solver state. -/
def SolverState.freeNum (s : SolverState) : ℕ := (freeList s.n s.fixed_).length

/-- The mesh data of a solver state. -/
def SolverState.mesh (s : SolverState) : MeshData :=
  { n := s.n, V := s.vertices_, faces := s.faces_, fixed := s.fixed_ }

/-- The `for (i = 0; i < ps.length; ++i) base.row(ps[i]) = tgt.row(i0 + i)`
loop shared by `SolvePreprocess` (fixed-target enforcement) and the
solution write-back of `SolveOneIteration`. -/
def enforceRows (base : ℕ → Vec3) (ps : List ℕ) (tgt : ℕ → Vec3) (i0 : ℕ) : ℕ → Vec3 :=
  match ps with
  | [] => base
  | p :: rest => enforceRows (Function.update base p (tgt i0)) rest tgt (i0 + 1)

/-- `AdmmFixedSolver::SolvePreprocess`: cache the supplied targets, check the
row count (fatal mismatch modelled as `Except.error` carrying the state at
exit time), then seed updated positions and reset `R`, `S`, `T`. -/
def solvePreprocess (s : SolverState) (fixed_vertices : TargetData) :
    Except SolverState SolverState :=
  let s1 : SolverState := { s with fixed_vertices_ := fixed_vertices }
  if s1.fixed_.length ≠ s1.fixed_vertices_.rows then Except.error s1
  else Except.ok { s1 with
    vertices_updated_ := enforceRows s1.vertices_ s1.fixed_ s1.fixed_vertices_.row 0,
    rotations_ := fun _ => (1 : Mat3),
    S_ := fun _ => (1 : Mat3),
    T_ := fun _ => (0 : Mat3) }

/-- The rotation-regularization rows of the right-hand side of the linear
solve: `rhs.block<3,3>(free_num + 3 v, 0) = rho (S_v - T_v)ᵀ` per vertex. -/
def rhsRotPart (s : SolverState) (i : ℕ) (c : Fin 3) : ℝ :=
  ∑ v ∈ Finset.range s.n, ∑ r : Fin 3,
    (if i = s.freeNum + 3 * v + (r : ℕ)
      then s.rho_ * ((s.S_ v - s.T_ v).transpose r c) else 0)

/-- One edge's contribution to the right-hand side in `SolveOneIteration`
(method 1): edges with two `Free` endpoints are skipped (`continue`), the
others contribute position terms and a `v bᵀ 2 w` block on the rotation rows. -/
def edgeRhsContrib (s : SolverState) (first second : ℕ) (i : ℕ) (c : Fin 3) : ℝ :=
  let w := s.weight_ first second
  let v : Vec3 := fun k => s.vertices_ first k - s.vertices_ second k
  if vtype s.fixed_ first = VertexType.Free ∧ vtype s.fixed_ second = VertexType.Free then 0
  else
    (if vtype s.fixed_ first = VertexType.Free ∧ i = vpos s.n s.fixed_ first
      then 2 * w * s.vertices_updated_ second c else 0)
    + (if vtype s.fixed_ second = VertexType.Free ∧ i = vpos s.n s.fixed_ second
      then 2 * w * s.vertices_updated_ first c else 0)
    + (let b : Vec3 := fun cc =>
        (if vtype s.fixed_ first = VertexType.Fixed then s.vertices_updated_ first cc else 0)
          - (if vtype s.fixed_ second = VertexType.Fixed then s.vertices_updated_ second cc else 0)
      ∑ k : Fin 3, (if i = rcCol s.freeNum first k then v k * b c * 2 * w else 0))

/-- The full right-hand side built by `SolveOneIteration` (method 1). -/
def buildRhs (s : SolverState) (i : ℕ) (c : Fin 3) : ℝ :=
  rhsRotPart s i c
    + (s.faces_.map (fun F =>
        ∑ e : Fin 3, edgeRhsContrib s (F (edgeFirst e)) (F (edgeSecond e)) i c)).sum

/-- Squared residual `(M x - rhs).squaredNorm()` of a candidate solution of
the `(freeNum + 3 n)`-unknown system. -/
def resSq (s : SolverState) (rhs sol : ℕ → Fin 3 → ℝ) : ℝ :=
  ∑ i ∈ Finset.range (s.freeNum + 3 * s.n), ∑ c : Fin 3,
    ((∑ j ∈ Finset.range (s.freeNum + 3 * s.n), s.M_ i j * sol j c) - rhs i c) ^ 2

/-- The 3x3 rotation block read back from the solution:
`solution.block<3,3>(free_num + 3 v, 0).transpose()`. -/
def rotBlockOf (s : SolverState) (sol : ℕ → Fin 3 → ℝ) (v : ℕ) : Mat3 :=
  fun a b => sol (s.freeNum + 3 * v + (b : ℕ)) a

/-- `AdmmFixedSolver::SolveOneIteration`, with the external linear solve
abstracted as the supplied `sol` (with its row count `solRows`) and the
external `igl::polar_svd3x3` abstracted as `polar`. The two fatal sanity
checks (solution row count, solve residual) are modelled as `none`. -/
def solveOneIteration (s : SolverState) (sol : ℕ → Fin 3 → ℝ) (solRows : ℕ)
    (polar : Mat3 → Mat3) : Option SolverState :=
  let rhs := buildRhs s
  if solRows ≠ s.freeNum + 3 * s.n then none
  else if resSq s rhs sol > kMatrixDiffThreshold then none
  else
    let updated := enforceRows s.vertices_updated_ (freeList s.n s.fixed_) (fun i c => sol i c) 0
    let R : ℕ → Mat3 := fun v => if v < s.n then rotBlockOf s sol v else s.rotations_ v
    let Snew : ℕ → Mat3 := fun v => if v < s.n then polar (R v + s.T_ v) else s.S_ v
    let Tnew : ℕ → Mat3 := fun v => if v < s.n then s.T_ v + (R v - Snew v) else s.T_ v
    some { s with
      vertices_updated_ := updated,
      rotations_ := R,
      S_ := Snew,
      T_ := Tnew }

open Classical in
/-- `AdmmFixedSolver::ComputeSVDSolveEnergy`: infinity when some projected
rotation fails the `IsSO3` test, else `(rho/2) * sum ||R_v - S_v + T_v||^2`. -/
def computeSVDSolveEnergy (n : ℕ) (R S T : ℕ → Mat3) (rho : ℝ) : EReal :=
  if ∃ v ∈ Finset.range n, ¬IsSO3 (S v) then ⊤
  else ((∑ v ∈ Finset.range n, sqFrobM (R v - S v + T v)) * (rho / 2) : ℝ)

/-- The ARAP term accumulated by `ComputeEnergy`: for every face edge,
`weight * ||(p_first - p_second) - R_first (pbar_first - pbar_second)||^2`. -/
def arapEnergy (s : SolverState) : ℝ :=
  (s.faces_.map (fun F =>
    ∑ e : Fin 3,
      (let first := F (edgeFirst e)
      let second := F (edgeSecond e)
      s.weight_ first second *
        sqnorm3 (fun k =>
          (s.vertices_updated_ first k - s.vertices_updated_ second k)
            - Matrix.mulVec (s.rotations_ first)
                (fun l => s.vertices_ first l - s.vertices_ second l) k)))).sum

/-- The rotation-augmentation term accumulated by `ComputeEnergy`:
`(rho/2) * sum ||R_v - S_v||^2` (summed, then scaled by `half_rho`). -/
def rotationEnergy (s : SolverState) : ℝ :=
  (∑ v ∈ Finset.range s.n, sqFrobM (s.rotations_ v - s.S_ v)) * (s.rho_ / 2)

open Classical in
/-- `AdmmFixedSolver::ComputeEnergy`: the energy breakdown keyed by term
name. On an `IsSO3` violation the early return produces a map holding only
an infinite "Total"; otherwise "ARAP", "Rotation" and "Total" are added in
source order. -/
def computeEnergy (s : SolverState) : List (String × EReal) :=
  if ∃ v ∈ Finset.range s.n, ¬IsSO3 (s.S_ v) then [(("Total"), (⊤ : EReal))]
  else [(("ARAP"), (arapEnergy s : EReal)),
        (("Rotation"), (rotationEnergy s : EReal)),
        (("Total"), ((arapEnergy s + rotationEnergy s : ℝ) : EReal))]

/-- The list of directed mesh edges, in face order: each face `(A, B, C)`
contributes `(B, C)`, `(C, A)` and `(A, B)`. -/
def directedEdges (faces : List (Fin 3 → ℕ)) : List (ℕ × ℕ) :=
  faces.flatMap (fun F => [(F 1, F 2), (F 2, F 0), (F 0, F 1)])

/-- The ARAP term in the spec's phrasing: the sum over all directed mesh
edges of `weight * ||(p_i - p_j) - R_i (pbar_i - pbar_j)||^2`. -/
def arapSpecSum (s : SolverState) : ℝ :=
  ((directedEdges s.faces_).map (fun p =>
    s.weight_ p.1 p.2 *
      sqnorm3 (fun k =>
        (s.vertices_updated_ p.1 k - s.vertices_updated_ p.2 k)
          - Matrix.mulVec (s.rotations_ p.1)
              (fun l => s.vertices_ p.1 l - s.vertices_ p.2 l) k))).sum

/-- The contribution one directed edge makes to the right-hand side, in the
spec's phrasing (no free-free guard; such edges are filtered out instead). -/
def rhsSpecTerm (s : SolverState) (p : ℕ × ℕ) (i : ℕ) (c : Fin 3) : ℝ :=
  let w := s.weight_ p.1 p.2
  let v : Vec3 := fun k => s.vertices_ p.1 k - s.vertices_ p.2 k
  (if vtype s.fixed_ p.1 = VertexType.Free ∧ i = vpos s.n s.fixed_ p.1
    then 2 * w * s.vertices_updated_ p.2 c else 0)
  + (if vtype s.fixed_ p.2 = VertexType.Free ∧ i = vpos s.n s.fixed_ p.2
    then 2 * w * s.vertices_updated_ p.1 c else 0)
  + (let b : Vec3 := fun cc =>
      (if vtype s.fixed_ p.1 = VertexType.Fixed then s.vertices_updated_ p.1 cc else 0)
        - (if vtype s.fixed_ p.2 = VertexType.Fixed then s.vertices_updated_ p.2 cc else 0)
    ∑ k : Fin 3, (if i = rcCol s.freeNum p.1 k then v k * b c * 2 * w else 0))

/-- The right-hand side in the spec's phrasing: per-vertex rotation blocks
`rho (S_v - T_v)ᵀ` plus edge terms only from directed edges having at least
one `Fixed` endpoint. -/
def rhsSpec (s : SolverState) (i : ℕ) (c : Fin 3) : ℝ :=
  rhsRotPart s i c
    + (((directedEdges s.faces_).filter (fun p =>
        decide (vtype s.fixed_ p.1 = VertexType.Fixed ∨ vtype s.fixed_ p.2 = VertexType.Fixed))).map
        (fun p => rhsSpecTerm s p i c)).sum

/-- The cotangent triple in the spec's phrasing: for each vertex of the
face, (sum of the two adjacent squared edge lengths minus the opposite
squared edge length) over four times the triangle area, the area being half
the cross-product norm. `oppSq m` is the squared length of the edge opposite
vertex `m`. -/
def cotSpec (d : MeshData) (F : Fin 3 → ℕ) (k : Fin 3) : ℝ :=
  let oppSq : Fin 3 → ℝ := fun m => sqnorm3 (d.V (F (m + 1)) - d.V (F (m + 2)))
  let area := norm3 (cross3 (d.V (F 1) - d.V (F 0)) (d.V (F 2) - d.V (F 0))) / 2
  (oppSq (k + 1) + oppSq (k + 2) - oppSq k) / (4 * area)

/-- The indicator form of the normal-equations sparse row: the same row as
`aRow`, written as a sum of its three disjoint groups of entries. -/
def indRow (ftF stF : Prop) [Decidable ftF] [Decidable stF] (fp sp : ℕ)
    (rc : Fin 3 → ℕ) (v : Fin 3 → ℝ) (x : ℕ) : ℝ :=
  (if ftF ∧ x = fp then 1 else 0) + (if stF ∧ x = sp then -1 else 0)
    + ∑ k : Fin 3, (if x = rc k then -(v k) else 0)

/-- An equilateral triangle of unit side length: vertices `(0,0,0)`,
`(1,0,0)` and `(1/2, sqrt 3 / 2, 0)`. -/
def equilateralMesh : MeshData where
  n := 3
  V := fun v => fun c =>
    if v = 0 then 0
    else if v = 1 then (if (c : ℕ) = 0 then 1 else 0)
    else if v = 2 then
      (if (c : ℕ) = 0 then 1 / 2 else if (c : ℕ) = 1 then Real.sqrt 3 / 2 else 0)
    else 0
  faces := [fun k => (k : ℕ)]
  fixed := []

/-- A minimal concrete mesh used to instantiate the universally quantified
claims: one triangle on three vertices, vertex 0 fixed. -/
def triMesh : MeshData where
  n := 3
  V := fun v => fun c =>
    if v = 1 then (if (c : ℕ) = 0 then 1 else 0)
    else if v = 2 then (if (c : ℕ) = 1 then 1 else 0)
    else 0
  faces := [fun k => (k : ℕ)]
  fixed := [0]

/-- The one-vertex, no-face mesh underlying the demo solver state. -/
def demoMesh : MeshData where
  n := 1
  V := fun _ => fun _ => 0
  faces := []
  fixed := []

/-- A minimal concrete solver state used to instantiate the iteration
claims: a single free vertex, no faces, `rho = 1`, with `M_` and `weight_`
holding exactly what `Precompute` assembles for that mesh. -/
def demoState : SolverState where
  n := 1
  vertices_ := fun _ => fun _ => 0
  faces_ := []
  fixed_ := []
  rho_ := 1
  weight_ := weightMatrix demoMesh
  M_ := assembleM1 demoMesh (weightMatrix demoMesh) 1
  fixed_vertices_ := { rows := 0, row := fun _ => fun _ => 0 }
  vertices_updated_ := fun _ => fun _ => 0
  rotations_ := fun _ => (1 : Mat3)
  S_ := fun _ => (1 : Mat3)
  T_ := fun _ => (0 : Mat3)

/-- The exact solution of the demo state's linear system: the position row
is zero and the rotation block is the identity. -/
def demoSol (j : ℕ) (c : Fin 3) : ℝ :=
  if j = (c : ℕ) + 1 then 1 else 0

/-- A perturbed solution of the demo state's linear system whose residual
squared norm is exactly `1e-6`. -/
def demoSolPert (j : ℕ) (c : Fin 3) : ℝ :=
  if j = 1 ∧ (c : ℕ) = 0 then 1 + 1 / 1000 else if j = (c : ℕ) + 1 then 1 else 0

/-- A stand-in for the external closest-rotation kernel that is exact on the
inputs the demo state feeds it (all of which are the identity). -/
def demoPolar : Mat3 → Mat3 := fun _ => (1 : Mat3)

theorem posIn_lt_length {l : List ℕ} {v : ℕ} (h : v ∈ l) : posIn l v < l.length := by
  induction l with
  | nil => cases h
  | cons a rest ih =>
    by_cases hv : v = a
    · simp [posIn, hv]
    · have hm : v ∈ rest := by
        rcases List.mem_cons.mp h with h1 | h1
        · exact absurd h1 hv
        · exact h1
      simp only [posIn, if_neg hv, List.length_cons]
      exact Nat.succ_lt_succ (ih hm)

theorem posIn_inj {l : List ℕ} (hnd : l.Nodup) {u v : ℕ} (hu : u ∈ l) (hv : v ∈ l)
    (he : posIn l u = posIn l v) : u = v := by
  induction l with
  | nil => cases hu
  | cons a rest ih =>
    rcases List.nodup_cons.mp hnd with ⟨_, hndr⟩
    by_cases hua : u = a <;> by_cases hva : v = a
    · exact hua.trans hva.symm
    · simp only [posIn, if_pos hua, if_neg hva] at he
      exact absurd he.symm (Nat.succ_ne_zero _)
    · simp only [posIn, if_neg hua, if_pos hva] at he
      exact absurd he (Nat.succ_ne_zero _)
    · simp only [posIn, if_neg hua, if_neg hva] at he
      have hur : u ∈ rest := by
        rcases List.mem_cons.mp hu with h1 | h1
        · exact absurd h1 hua
        · exact h1
      have hvr : v ∈ rest := by
        rcases List.mem_cons.mp hv with h1 | h1
        · exact absurd h1 hva
        · exact h1
      exact ih hndr hur hvr (Nat.succ_injective he)

theorem mem_freeList {n : ℕ} {fixed : List ℕ} {v : ℕ} :
    v ∈ freeList n fixed ↔ v < n ∧ v ∉ fixed := by
  simp [freeList, List.mem_filter, List.mem_range]

theorem freeList_nodup (n : ℕ) (fixed : List ℕ) : (freeList n fixed).Nodup :=
  (List.nodup_range n).filter _

theorem vtype_free_iff {fixed : List ℕ} {v : ℕ} :
    vtype fixed v = VertexType.Free ↔ v ∉ fixed := by
  unfold vtype
  by_cases h : v ∈ fixed <;> simp [h]

theorem vtype_fixed_iff {fixed : List ℕ} {v : ℕ} :
    vtype fixed v = VertexType.Fixed ↔ v ∈ fixed := by
  unfold vtype
  by_cases h : v ∈ fixed <;> simp [h]

theorem vpos_free_eq {n : ℕ} {fixed : List ℕ} {v : ℕ} (h : v ∉ fixed) :
    vpos n fixed v = posIn (freeList n fixed) v := by
  simp [vpos, h]

theorem vpos_lt_freeNum {n : ℕ} {fixed : List ℕ} {v : ℕ} (hv : v < n)
    (hfree : vtype fixed v = VertexType.Free) :
    vpos n fixed v < (freeList n fixed).length := by
  have hnm : v ∉ fixed := vtype_free_iff.mp hfree
  rw [vpos_free_eq hnm]
  exact posIn_lt_length (mem_freeList.mpr ⟨hv, hnm⟩)

theorem vpos_free_inj {n : ℕ} {fixed : List ℕ} {u v : ℕ} (hu : u < n) (hv : v < n)
    (hfu : vtype fixed u = VertexType.Free) (hfv : vtype fixed v = VertexType.Free)
    (hne : u ≠ v) : vpos n fixed u ≠ vpos n fixed v := by
  have hnu : u ∉ fixed := vtype_free_iff.mp hfu
  have hnv : v ∉ fixed := vtype_free_iff.mp hfv
  rw [vpos_free_eq hnu, vpos_free_eq hnv]
  intro he
  exact hne (posIn_inj (freeList_nodup n fixed)
    (mem_freeList.mpr ⟨hu, hnu⟩) (mem_freeList.mpr ⟨hv, hnv⟩) he)

theorem enforceRows_eval {tgt : ℕ → Vec3} :
    ∀ (ps : List ℕ), ps.Nodup → ∀ (base : ℕ → Vec3) (i0 v : ℕ),
      enforceRows base ps tgt i0 v =
        if v ∈ ps then tgt (i0 + posIn ps v) else base v := by
  intro ps
  induction ps with
  | nil => intro _ base i0 v; simp [enforceRows]
  | cons p rest ih =>
    intro hnd base i0 v
    rcases List.nodup_cons.mp hnd with ⟨hpr, hndr⟩
    rw [enforceRows, ih hndr]
    by_cases hvr : v ∈ rest
    · have hvp : v ≠ p := fun h => hpr (h ▸ hvr)
      rw [if_pos hvr, if_pos (List.mem_cons.mpr (Or.inr hvr))]
      have hpi : posIn (p :: rest) v = posIn rest v + 1 := by
        simp [posIn, hvp]
      rw [hpi]
      have harg : i0 + 1 + posIn rest v = i0 + (posIn rest v + 1) := by omega
      rw [harg]
    · rw [if_neg hvr]
      by_cases hvp : v = p
      · subst hvp
        rw [if_pos (List.mem_cons_self _ _)]
        simp [Function.update, posIn]
      · rw [if_neg (by simp [List.mem_cons, hvp, hvr])]
        simp [Function.update, hvp]

theorem sum_list_map_sum {α : Type} (l : List α) (s : Finset ℕ) (g : α → ℕ → ℝ) :
    ∑ j ∈ s, (l.map (fun F => g F j)).sum = (l.map (fun F => ∑ j ∈ s, g F j)).sum := by
  induction l with
  | nil => simp
  | cons F rest ih => simp [List.map_cons, List.sum_cons, Finset.sum_add_distrib, ih]

theorem sum_range_ite_pair {n b : ℕ} (hb : b < n) (P : Prop) [Decidable P] (c : ℝ) :
    ∑ j ∈ Finset.range n, (if P ∧ j = b then c else 0) = if P then c else 0 := by
  by_cases hP : P
  · simp only [hP, true_and]
    rw [Finset.sum_ite_eq' (Finset.range n) b (fun _ => c)]
    simp [Finset.mem_range, hb]
  · simp [hP]

theorem weightFaceContrib_symm (d : MeshData) (F : Fin 3 → ℕ) (i j : ℕ) :
    weightFaceContrib d F i j = weightFaceContrib d F j i := by
  unfold weightFaceContrib
  apply Finset.sum_congr rfl
  intro e _
  simp only [show (i = F (edgeFirst e) ∧ j = F (edgeSecond e))
      = (j = F (edgeSecond e) ∧ i = F (edgeFirst e)) from propext and_comm,
    show (i = F (edgeSecond e) ∧ j = F (edgeFirst e))
      = (j = F (edgeFirst e) ∧ i = F (edgeSecond e)) from propext and_comm,
    show (i = F (edgeFirst e) ∧ j = F (edgeFirst e))
      = (j = F (edgeFirst e) ∧ i = F (edgeFirst e)) from propext and_comm,
    show (i = F (edgeSecond e) ∧ j = F (edgeSecond e))
      = (j = F (edgeSecond e) ∧ i = F (edgeSecond e)) from propext and_comm]
  ring

theorem weightFaceContrib_row_sum (d : MeshData) (F : Fin 3 → ℕ)
    (hF : ∀ k : Fin 3, F k < d.n) (v : ℕ) :
    ∑ j ∈ Finset.range d.n, weightFaceContrib d F v j = 0 := by
  unfold weightFaceContrib
  rw [Finset.sum_comm]
  apply Finset.sum_eq_zero
  intro e _
  simp only [Finset.sum_sub_distrib, Finset.sum_add_distrib]
  rw [sum_range_ite_pair (hF (edgeSecond e)) _ _, sum_range_ite_pair (hF (edgeFirst e)) _ _,
    sum_range_ite_pair (hF (edgeFirst e)) _ _, sum_range_ite_pair (hF (edgeSecond e)) _ _]
  ring

theorem weightMatrix_row_sum (d : MeshData)
    (hfaces : ∀ F ∈ d.faces, ∀ k : Fin 3, F k < d.n) (v : ℕ) :
    ∑ j ∈ Finset.range d.n, weightMatrix d v j = 0 := by
  unfold weightMatrix
  rw [sum_list_map_sum]
  apply List.sum_eq_zero
  intro x hx
  rcases List.mem_map.mp hx with ⟨F, hF, hFx⟩
  rw [← hFx]
  exact weightFaceContrib_row_sum d F (hfaces F hF) v

/-- Claim C5: for every mesh, the weight matrix assembled by `Precompute` is
symmetric, every diagonal entry equals the negated sum of that vertex's
off-diagonal row entries, and each face contributes exactly its three
half-cotangent terms to its three (undirected) edges. -/
theorem claim_C5_weight_matrix (d : MeshData)
    (hfaces : ∀ F ∈ d.faces, ∀ k : Fin 3, F k < d.n) :
    (∀ i j, weightMatrix d i j = weightMatrix d j i)
    ∧ (∀ v, v < d.n →
        weightMatrix d v v = -∑ j ∈ (Finset.range d.n).erase v, weightMatrix d v j)
    ∧ (∀ F ∈ d.faces, ∀ i j, i ≠ j →
        weightFaceContrib d F i j =
          ∑ e : Fin 3,
            (if (i = F (edgeFirst e) ∧ j = F (edgeSecond e))
                ∨ (i = F (edgeSecond e) ∧ j = F (edgeFirst e))
              then computeCotangent d F e / 2 else 0)) := by
  refine ⟨?_, ?_, ?_⟩
  · intro i j
    unfold weightMatrix
    congr 1
    apply List.map_congr_left
    intro F _
    exact weightFaceContrib_symm d F i j
  · intro v hv
    have hrow := weightMatrix_row_sum d hfaces v
    have hsplit := Finset.add_sum_erase (Finset.range d.n)
      (fun j => weightMatrix d v j) (Finset.mem_range.mpr hv)
    linarith [hsplit.trans hrow]
  · intro F _ i j hij
    unfold weightFaceContrib
    apply Finset.sum_congr rfl
    intro e _
    by_cases h1 : i = F (edgeFirst e) ∧ j = F (edgeSecond e) <;>
      by_cases h2 : i = F (edgeSecond e) ∧ j = F (edgeFirst e)
    · exact absurd (h1.1.trans h2.2.symm) hij
    · have hd1 : ¬(i = F (edgeFirst e) ∧ j = F (edgeFirst e)) := by
        intro h; exact hij (h.1.trans h.2.symm)
      have hd2 : ¬(i = F (edgeSecond e) ∧ j = F (edgeSecond e)) := by
        intro h; exact hij (h.1.trans h.2.symm)
      rw [if_pos h1, if_neg h2, if_neg hd1, if_neg hd2, if_pos (Or.inl h1)]
      ring
    · have hd1 : ¬(i = F (edgeFirst e) ∧ j = F (edgeFirst e)) := by
        intro h; exact hij (h.1.trans h.2.symm)
      have hd2 : ¬(i = F (edgeSecond e) ∧ j = F (edgeSecond e)) := by
        intro h; exact hij (h.1.trans h.2.symm)
      rw [if_neg h1, if_pos h2, if_neg hd1, if_neg hd2, if_pos (Or.inr h2)]
      ring
    · have hd1 : ¬(i = F (edgeFirst e) ∧ j = F (edgeFirst e)) := by
        intro h; exact hij (h.1.trans h.2.symm)
      have hd2 : ¬(i = F (edgeSecond e) ∧ j = F (edgeSecond e)) := by
        intro h; exact hij (h.1.trans h.2.symm)
      rw [if_neg h1, if_neg h2, if_neg hd1, if_neg hd2,
        if_neg (show ¬(_ ∨ _) from fun h => h.elim h1 h2)]
      ring

/-- Witness for C5: the triangle mesh with vertex 0 fixed satisfies the
hypotheses, and there the weight entry for edge (0,1) equals its mirror
entry and the diagonal entry at vertex 0 is the negated off-diagonal row
sum. -/
theorem claim_C5_weight_matrix_witness :
    weightMatrix triMesh 0 1 = weightMatrix triMesh 1 0
      ∧ weightMatrix triMesh 0 0
          = -∑ j ∈ (Finset.range triMesh.n).erase 0, weightMatrix triMesh 0 j := by
  have hfaces : ∀ F ∈ triMesh.faces, ∀ k : Fin 3, F k < triMesh.n := by
    intro F hF k
    have : F = fun k : Fin 3 => (k : ℕ) := by
      simpa [triMesh] using hF
    subst this
    exact k.isLt
  exact ⟨(claim_C5_weight_matrix triMesh hfaces).1 0 1,
    (claim_C5_weight_matrix triMesh hfaces).2.1 0 (by norm_num [triMesh])⟩

theorem computeCotangent_eq_cotSpec (d : MeshData) (F : Fin 3 → ℕ) (k : Fin 3) :
    computeCotangent d F k = cotSpec d F k := by
  fin_cases k <;> rfl

/-- Claim C6: `ComputeCotangent` returns the triple whose entry for each
vertex is (sum of the two adjacent squared edge lengths minus the opposite
squared edge length) over four times the triangle area (the area being half
the cross-product norm), and on an equilateral triangle of unit side length
every entry is `1 / sqrt 3`. -/
theorem claim_C6_cotangent :
    (∀ (d : MeshData) (F : Fin 3 → ℕ) (k : Fin 3),
      computeCotangent d F k = cotSpec d F k)
    ∧ (∀ k : Fin 3,
      computeCotangent equilateralMesh (fun m => (m : ℕ)) k = 1 / Real.sqrt 3) := by
  constructor
  · exact computeCotangent_eq_cotSpec
  · have h3 : (0 : ℝ) ≤ 3 := by norm_num
    have hs2 : Real.sqrt 3 ^ 2 = 3 := Real.sq_sqrt h3
    have hsnn : 0 ≤ Real.sqrt 3 := Real.sqrt_nonneg 3
    have hspos : 0 < Real.sqrt 3 := Real.sqrt_pos.mpr (by norm_num)
    have hA : equilateralMesh.V 0 = fun _ : Fin 3 => (0 : ℝ) := by
      funext c; simp [equilateralMesh]
    have hB : equilateralMesh.V 1
        = fun c : Fin 3 => if (c : ℕ) = 0 then (1 : ℝ) else 0 := by
      funext c; simp [equilateralMesh]
    have hC : equilateralMesh.V 2 = fun c : Fin 3 =>
        if (c : ℕ) = 0 then (1 : ℝ) / 2
        else if (c : ℕ) = 1 then Real.sqrt 3 / 2 else 0 := by
      funext c; simp [equilateralMesh]
    have ha2 : sqnorm3 (equilateralMesh.V 1 - equilateralMesh.V 2) = 1 := by
      rw [hB, hC]
      simp only [sqnorm3, Fin.sum_univ_three, Pi.sub_apply]
      norm_num
      linear_combination hs2 / 4
    have hb2 : sqnorm3 (equilateralMesh.V 2 - equilateralMesh.V 0) = 1 := by
      rw [hA, hC]
      simp only [sqnorm3, Fin.sum_univ_three, Pi.sub_apply]
      norm_num
      linear_combination hs2 / 4
    have hc2 : sqnorm3 (equilateralMesh.V 0 - equilateralMesh.V 1) = 1 := by
      rw [hA, hB]
      simp only [sqnorm3, Fin.sum_univ_three, Pi.sub_apply]
      norm_num
    have hcross : cross3 (equilateralMesh.V 1 - equilateralMesh.V 0)
        (equilateralMesh.V 2 - equilateralMesh.V 0)
        = fun k : Fin 3 => if (k : ℕ) = 2 then Real.sqrt 3 / 2 else (0 : ℝ) := by
      rw [hA, hB, hC]
      funext k
      fin_cases k <;> simp only [cross3, Pi.sub_apply] <;> norm_num
    have hnorm : norm3 (cross3 (equilateralMesh.V 1 - equilateralMesh.V 0)
        (equilateralMesh.V 2 - equilateralMesh.V 0)) = Real.sqrt 3 / 2 := by
      rw [hcross]
      unfold norm3
      have hsq : sqnorm3 (fun k : Fin 3 => if (k : ℕ) = 2 then Real.sqrt 3 / 2 else 0)
          = (Real.sqrt 3 / 2) ^ 2 := by
        simp only [sqnorm3, Fin.sum_univ_three]
        norm_num
      rw [hsq, Real.sqrt_sq (by positivity)]
    intro k
    fin_cases k <;>
      simp only [computeCotangent] <;>
      norm_num <;>
      rw [ha2, hb2, hc2, hnorm,
        show (4 : ℝ) * (Real.sqrt 3 / 2 / 2) = Real.sqrt 3 from by ring] <;>
      norm_num

theorem fin3_val0 : ((0 : Fin 3) : ℕ) = 0 := rfl

theorem fin3_val1 : ((1 : Fin 3) : ℕ) = 1 := rfl

theorem fin3_val2 : ((2 : Fin 3) : ℕ) = 2 := rfl

theorem ite_pair_mul {P Q : Prop} [Decidable P] [Decidable Q] (c : ℝ) :
    (if P ∧ Q then c else 0)
      = c * (if P then (1 : ℝ) else 0) * (if Q then (1 : ℝ) else 0) := by
  by_cases hP : P <;> by_cases hQ : Q <;> simp [hP, hQ]

theorem ite_neg_val {P : Prop} [Decidable P] (x : ℝ) :
    (if P then -x else 0) = -(if P then x else 0) := by
  by_cases hP : P <;> simp [hP]

theorem ite_neg_one {P : Prop} [Decidable P] :
    (if P then (-1 : ℝ) else 0) = -(if P then (1 : ℝ) else 0) := by
  by_cases hP : P <;> simp [hP]

theorem ite_sub_val {P : Prop} [Decidable P] (a b : ℝ) :
    (if P then a - b else 0) = (a - b) * (if P then (1 : ℝ) else 0) := by
  by_cases hP : P <;> simp [hP]

theorem sum3_ite_neg (q : Fin 3 → Prop) [DecidablePred q] (v : Fin 3 → ℝ) :
    (∑ k : Fin 3, (if q k then -(v k) else 0))
      = -(∑ k : Fin 3, (if q k then v k else 0)) := by
  rw [← Finset.sum_neg_distrib]
  apply Finset.sum_congr rfl
  intro k _
  by_cases h : q k <;> simp [h]

theorem sum3_pair_left {P : Prop} [Decidable P] (q : Fin 3 → Prop) [DecidablePred q]
    (c : ℝ) (v : Fin 3 → ℝ) :
    (∑ k : Fin 3, (if P ∧ q k then c * v k else 0))
      = c * (if P then (1 : ℝ) else 0) * (∑ k : Fin 3, (if q k then v k else 0)) := by
  rw [mul_assoc, Finset.mul_sum, Finset.mul_sum]
  apply Finset.sum_congr rfl
  intro k _
  by_cases hP : P <;> by_cases hq : q k <;> simp [hP, hq] <;> ring

theorem sum3_pair_right {P : Prop} [Decidable P] (q : Fin 3 → Prop) [DecidablePred q]
    (c : ℝ) (v : Fin 3 → ℝ) :
    (∑ k : Fin 3, (if q k ∧ P then c * v k else 0))
      = c * (∑ k : Fin 3, (if q k then v k else 0)) * (if P then (1 : ℝ) else 0) := by
  rw [mul_comm (c * _) _, ← mul_assoc, mul_comm _ c, mul_assoc, Finset.mul_sum, Finset.mul_sum]
  apply Finset.sum_congr rfl
  intro k _
  by_cases hP : P <;> by_cases hq : q k <;> simp [hP, hq] <;> ring

theorem sum3_pair_both (q r : Fin 3 → Prop) [DecidablePred q] [DecidablePred r]
    (c : ℝ) (v : Fin 3 → ℝ) :
    (∑ k : Fin 3, ∑ l : Fin 3, (if q k ∧ r l then v k * v l * c else 0))
      = c * (∑ k : Fin 3, (if q k then v k else 0))
          * (∑ l : Fin 3, (if r l then v l else 0)) := by
  rw [mul_assoc, Finset.sum_mul_sum, Finset.mul_sum]
  apply Finset.sum_congr rfl
  intro k _
  rw [Finset.mul_sum]
  apply Finset.sum_congr rfl
  intro l _
  by_cases hq : q k <;> by_cases hr : r l <;> simp [hq, hr] <;> ring

theorem vpos_lt_mesh_freeNum {d : MeshData} {v : ℕ} (hv : v < d.n)
    (hfree : vtype d.fixed v = VertexType.Free) :
    vpos d.n d.fixed v < d.freeNum := by
  unfold MeshData.freeNum
  exact vpos_lt_freeNum hv hfree

theorem aRow_eq_indRow (d : MeshData) {first second : ℕ}
    (hf : first < d.n) (hs : second < d.n) (hns : first ≠ second) (x : ℕ) :
    aRow d first second x
      = indRow (vtype d.fixed first = VertexType.Free)
          (vtype d.fixed second = VertexType.Free)
          (vpos d.n d.fixed first) (vpos d.n d.fixed second)
          (fun k => rcCol d.freeNum first k)
          (fun k => d.V first k - d.V second k) x := by
  have hfp : vtype d.fixed first = VertexType.Free →
      vpos d.n d.fixed first < d.freeNum := fun h => vpos_lt_mesh_freeNum hf h
  have hsp : vtype d.fixed second = VertexType.Free →
      vpos d.n d.fixed second < d.freeNum := fun h => vpos_lt_mesh_freeNum hs h
  have hfs : vtype d.fixed first = VertexType.Free →
      vtype d.fixed second = VertexType.Free →
      vpos d.n d.fixed first ≠ vpos d.n d.fixed second :=
    fun h1 h2 => vpos_free_inj hf hs h1 h2 hns
  unfold aRow indRow rcCol
  rw [Fin.sum_univ_three]
  simp only [fin3_val0, fin3_val1, fin3_val2]
  by_cases h0 : x = d.freeNum + 3 * first + 0
  · rw [if_pos h0, if_neg (fun hc : _ ∧ _ => by have := hfp hc.1; omega),
      if_neg (fun hc : _ ∧ _ => by have := hsp hc.1; omega),
      if_pos h0, if_neg (show ¬x = d.freeNum + 3 * first + 1 by omega),
      if_neg (show ¬x = d.freeNum + 3 * first + 2 by omega)]
    ring
  · rw [if_neg h0]
    by_cases h1 : x = d.freeNum + 3 * first + 1
    · rw [if_pos h1, if_neg (fun hc : _ ∧ _ => by have := hfp hc.1; omega),
        if_neg (fun hc : _ ∧ _ => by have := hsp hc.1; omega),
        if_neg h0, if_pos h1,
        if_neg (show ¬x = d.freeNum + 3 * first + 2 by omega)]
      ring
    · rw [if_neg h1]
      by_cases h2 : x = d.freeNum + 3 * first + 2
      · rw [if_pos h2, if_neg (fun hc : _ ∧ _ => by have := hfp hc.1; omega),
          if_neg (fun hc : _ ∧ _ => by have := hsp hc.1; omega),
          if_neg h0, if_neg h1, if_pos h2]
        ring
      · rw [if_neg h2]
        by_cases h3 : vtype d.fixed second = VertexType.Free ∧ x = vpos d.n d.fixed second
        · rw [if_pos h3,
            if_neg (fun hc : _ ∧ _ => hfs hc.1 h3.1 (hc.2.symm.trans h3.2)),
            if_pos h3, if_neg h0, if_neg h1, if_neg h2]
          ring
        · rw [if_neg h3]
          by_cases h4 : vtype d.fixed first = VertexType.Free ∧ x = vpos d.n d.fixed first
          · rw [if_pos h4, if_neg h3, if_neg h0, if_neg h1, if_neg h2]
            ring
          · rw [if_neg h4, if_neg h3, if_neg h0, if_neg h1, if_neg h2]
            ring

theorem edgeContrib_eq (d : MeshData) (W : ℕ → ℕ → ℝ) {first second : ℕ}
    (hf : first < d.n) (hs : second < d.n) (hns : first ≠ second) (i j : ℕ) :
    edgeContribM1 d W first second i j = edgeContribM2 d W first second i j := by
  unfold edgeContribM2
  rw [aRow_eq_indRow d hf hs hns i, aRow_eq_indRow d hf hs hns j]
  by_cases hft : vtype d.fixed first = VertexType.Free <;>
    by_cases hst : vtype d.fixed second = VertexType.Free <;>
    simp only [edgeContribM1, indRow, hft, hst, Fin.sum_univ_three, fin3_val0, fin3_val1,
      fin3_val2, ite_pair_mul, ite_neg_val, ite_neg_one, ite_sub_val, eq_self_iff_true,
      if_true, if_false, true_and, false_and, and_true, and_false] <;>
    ring

theorem sum_range_three_mul (g : ℕ → ℝ) (n : ℕ) :
    ∑ t ∈ Finset.range (3 * n), g t
      = ∑ v ∈ Finset.range n, (g (3 * v) + g (3 * v + 1) + g (3 * v + 2)) := by
  induction n with
  | zero => simp
  | succ m ih =>
    rw [Finset.sum_range_succ, ← ih,
      show 3 * (m + 1) = 3 * m + 1 + 1 + 1 from by ring,
      Finset.sum_range_succ, Finset.sum_range_succ, Finset.sum_range_succ,
      show 3 * m + 1 + 1 = 3 * m + 2 from rfl]
    ring

theorem diag_eq_rotPart (d : MeshData) (rho : ℝ) (i j : ℕ) :
    (∑ t ∈ Finset.range (3 * d.n),
      (if i = d.freeNum + t ∧ j = d.freeNum + t then rho else 0))
      = ∑ v ∈ Finset.range d.n, rotContribM2 d rho v i j := by
  rw [sum_range_three_mul]
  apply Finset.sum_congr rfl
  intro v _
  unfold rotContribM2 rcCol
  rw [Fin.sum_univ_three]
  simp only [fin3_val0, fin3_val1, fin3_val2, Nat.add_zero, Nat.add_assoc]

theorem assembleM1_eq_assembleM2 (d : MeshData) (W : ℕ → ℕ → ℝ) (rho : ℝ)
    (hfaces : ∀ F ∈ d.faces,
      (∀ k : Fin 3, F k < d.n) ∧ ∀ k l : Fin 3, k ≠ l → F k ≠ F l)
    (i j : ℕ) : assembleM1 d W rho i j = assembleM2 d W rho i j := by
  unfold assembleM1 assembleM2
  rw [diag_eq_rotPart, add_comm]
  congr 1
  congr 1
  apply List.map_congr_left
  intro F hF
  apply Finset.sum_congr rfl
  intro e _
  refine edgeContrib_eq d W ((hfaces F hF).1 (edgeFirst e)) ((hfaces F hF).1 (edgeSecond e))
    ((hfaces F hF).2 (edgeFirst e) (edgeSecond e) ?_) i j
  fin_cases e <;> decide

/-- Claim C1: for every mesh (faces in range, no degenerate repeated vertex
inside a face), free/fixed partition and positive `rho`, the direct-gradient
assembly of the system matrix and the normal-equations assembly produce the
identical matrix entrywise, in particular with maximum absolute entrywise
difference below `1e-9`. -/
theorem claim_C1_assembly_equivalence (d : MeshData) (rho : ℝ) (hrho : 0 < rho)
    (hfaces : ∀ F ∈ d.faces,
      (∀ k : Fin 3, F k < d.n) ∧ ∀ k l : Fin 3, k ≠ l → F k ≠ F l) :
    (∀ i j, assembleM1 d (weightMatrix d) rho i j = assembleM2 d (weightMatrix d) rho i j)
    ∧ (∀ i j,
      |assembleM1 d (weightMatrix d) rho i j - assembleM2 d (weightMatrix d) rho i j|
        < 1e-9) := by
  constructor
  · intro i j
    exact assembleM1_eq_assembleM2 d (weightMatrix d) rho hfaces i j
  · intro i j
    rw [assembleM1_eq_assembleM2 d (weightMatrix d) rho hfaces i j]
    simp only [sub_self, abs_zero]
    norm_num

/-- Witness for C1: the hypotheses hold on the concrete one-triangle mesh
with vertex 0 fixed and `rho = 1`, and there the two assembled matrices are
the same function of the indices. -/
theorem claim_C1_assembly_equivalence_witness :
    assembleM1 triMesh (weightMatrix triMesh) 1
      = assembleM2 triMesh (weightMatrix triMesh) 1 := by
  funext i j
  have hfaces : ∀ F ∈ triMesh.faces,
      (∀ k : Fin 3, F k < triMesh.n) ∧ ∀ k l : Fin 3, k ≠ l → F k ≠ F l := by
    intro F hF
    have hFeq : F = fun k : Fin 3 => (k : ℕ) := by
      simpa [triMesh] using hF
    subst hFeq
    constructor
    · intro k; exact k.isLt
    · intro k l hkl
      simpa using fun h => hkl (Fin.val_injective h)
  exact (claim_C1_assembly_equivalence triMesh 1 (by norm_num) hfaces).1 i j

theorem solvePreprocess_ok {s : SolverState} {tgt : TargetData}
    (h : tgt.rows = s.fixed_.length) :
    solvePreprocess s tgt = Except.ok { s with
      fixed_vertices_ := tgt,
      vertices_updated_ := enforceRows s.vertices_ s.fixed_ tgt.row 0,
      rotations_ := fun _ => (1 : Mat3),
      S_ := fun _ => (1 : Mat3),
      T_ := fun _ => (0 : Mat3) } := by
  simp only [solvePreprocess]
  rw [if_neg (by simp [h])]

theorem solvePreprocess_error {s : SolverState} {tgt : TargetData}
    (h : tgt.rows ≠ s.fixed_.length) :
    solvePreprocess s tgt = Except.error { s with fixed_vertices_ := tgt } := by
  simp only [solvePreprocess]
  rw [if_pos (by simp; omega)]

/-- Claim C7: after a successful `SolvePreprocess`, every vertex's updated
position is its rest position except that each fixed vertex carries its
supplied target row, all `R_v` and `S_v` are the identity and all `T_v`
are zero. -/
theorem claim_C7_preprocess_state (s : SolverState) (tgt : TargetData)
    (hnd : s.fixed_.Nodup) (hrows : tgt.rows = s.fixed_.length) :
    ∃ s2, solvePreprocess s tgt = Except.ok s2
      ∧ (∀ v, v ∉ s.fixed_ → s2.vertices_updated_ v = s.vertices_ v)
      ∧ (∀ v, v ∈ s.fixed_ → s2.vertices_updated_ v = tgt.row (posIn s.fixed_ v))
      ∧ (∀ v, s2.rotations_ v = 1)
      ∧ (∀ v, s2.S_ v = 1)
      ∧ (∀ v, s2.T_ v = 0) := by
  refine ⟨_, solvePreprocess_ok hrows, ?_, ?_, fun _ => rfl, fun _ => rfl, fun _ => rfl⟩
  · intro v hv
    show enforceRows s.vertices_ s.fixed_ tgt.row 0 v = s.vertices_ v
    rw [enforceRows_eval s.fixed_ hnd, if_neg hv]
  · intro v hv
    show enforceRows s.vertices_ s.fixed_ tgt.row 0 v = tgt.row (posIn s.fixed_ v)
    rw [enforceRows_eval s.fixed_ hnd, if_pos hv, Nat.zero_add]

/-- Witness for C7: a one-vertex state with vertex 0 fixed and a matching
one-row target satisfies the hypotheses and the conclusions. -/
theorem claim_C7_preprocess_state_witness :
    ∃ s2, solvePreprocess { demoState with fixed_ := [0] }
        { rows := 1, row := fun _ => fun _ => 5 } = Except.ok s2
      ∧ (∀ v, v ∉ [0] → s2.vertices_updated_ v = demoState.vertices_ v)
      ∧ (∀ v, v ∈ [0] → s2.vertices_updated_ v
          = (fun _ : ℕ => fun _ : Fin 3 => (5 : ℝ)) (posIn [0] v))
      ∧ (∀ v, s2.rotations_ v = 1)
      ∧ (∀ v, s2.S_ v = 1)
      ∧ (∀ v, s2.T_ v = 0) :=
  claim_C7_preprocess_state { demoState with fixed_ := [0] }
    { rows := 1, row := fun _ => fun _ => 5 } (by decide) rfl

/-- Claim C9: `SolvePreprocess` succeeds exactly when the supplied target
matrix has as many rows as there are fixed vertices; a mismatch is fatal
before any iteration runs. -/
theorem claim_C9_dimension_check (s : SolverState) (tgt : TargetData) :
    (∃ s2, solvePreprocess s tgt = Except.ok s2) ↔ tgt.rows = s.fixed_.length := by
  constructor
  · rintro ⟨s2, hs2⟩
    by_contra hne
    rw [solvePreprocess_error hne] at hs2
    simp at hs2
  · intro h
    exact ⟨_, solvePreprocess_ok h⟩

/-- Claim C10: `SolvePreprocess` caches the supplied targets before the
row-count check, so a failing call exits with the cached targets already
overwritten but updated positions, `R`, `S`, `T` (and all other fields)
untouched; a successful call mutates only the five per-frame fields. -/
theorem claim_C10_frame_effect (s : SolverState) (tgt : TargetData) :
    (tgt.rows ≠ s.fixed_.length →
      solvePreprocess s tgt = Except.error { s with fixed_vertices_ := tgt })
    ∧ (tgt.rows = s.fixed_.length →
      ∃ s2, solvePreprocess s tgt = Except.ok s2
        ∧ s2.fixed_vertices_ = tgt
        ∧ s2.n = s.n ∧ s2.vertices_ = s.vertices_ ∧ s2.faces_ = s.faces_
        ∧ s2.fixed_ = s.fixed_ ∧ s2.rho_ = s.rho_ ∧ s2.weight_ = s.weight_
        ∧ s2.M_ = s.M_) := by
  constructor
  · intro h
    exact solvePreprocess_error h
  · intro h
    exact ⟨_, solvePreprocess_ok h, rfl, rfl, rfl, rfl, rfl, rfl, rfl, rfl⟩

/-- Witness for C10: both branches instantiated on the demo state — a
mismatched two-row target yields the error state with the cache already
overwritten, and a matched zero-row target succeeds. -/
theorem claim_C10_frame_effect_witness :
    solvePreprocess demoState { rows := 2, row := fun _ => fun _ => 0 }
        = Except.error { demoState with
            fixed_vertices_ := { rows := 2, row := fun _ => fun _ => 0 } }
      ∧ ∃ s2, solvePreprocess demoState { rows := 0, row := fun _ => fun _ => 0 }
          = Except.ok s2 ∧ s2.M_ = demoState.M_ :=
  ⟨(claim_C10_frame_effect demoState _).1 (by decide),
    by
      obtain ⟨s2, h1, -, -, -, -, -, -, -, h2⟩ :=
        (claim_C10_frame_effect demoState { rows := 0, row := fun _ => fun _ => 0 }).2 rfl
      exact ⟨s2, h1, h2⟩⟩

theorem directedEdges_map_sum (faces : List (Fin 3 → ℕ)) (g : ℕ × ℕ → ℝ) :
    ((directedEdges faces).map g).sum
      = (faces.map (fun F => g (F 1, F 2) + g (F 2, F 0) + g (F 0, F 1))).sum := by
  induction faces with
  | nil => simp [directedEdges]
  | cons F rest ih =>
    have hcons : directedEdges (F :: rest)
        = (F 1, F 2) :: (F 2, F 0) :: (F 0, F 1) :: directedEdges rest := rfl
    rw [hcons, List.map_cons, List.map_cons, List.map_cons, List.sum_cons, List.sum_cons,
      List.sum_cons, ih, List.map_cons, List.sum_cons]
    ring

theorem arapEnergy_eq_spec (s : SolverState) : arapEnergy s = arapSpecSum s := by
  unfold arapEnergy arapSpecSum
  rw [directedEdges_map_sum]
  congr 1
  apply List.map_congr_left
  intro F _
  rw [Fin.sum_univ_three,
    show edgeFirst 0 = 1 from rfl, show edgeSecond 0 = 2 from rfl,
    show edgeFirst 1 = 2 from rfl, show edgeSecond 1 = 0 from rfl,
    show edgeFirst 2 = 0 from rfl, show edgeSecond 2 = 1 from rfl]

theorem rotationEnergy_comm (s : SolverState) :
    rotationEnergy s
      = s.rho_ / 2 * ∑ v ∈ Finset.range s.n, sqFrobM (s.rotations_ v - s.S_ v) := by
  unfold rotationEnergy
  ring

/-- Claim C2: `ComputeEnergy` produces a breakdown keyed "ARAP" / "Rotation"
/ "Total" whose entries are the spec's directed-edge ARAP sum, the
`(rho/2) * sum ||R_v - S_v||^2` augmentation term, and their sum; when some
`S_v` violates the `IsSO3` tolerance test the returned "Total" is positive
infinity instead of the call aborting. -/
theorem claim_C2_compute_energy (s : SolverState) :
    ((∀ v ∈ Finset.range s.n, IsSO3 (s.S_ v)) →
      ((computeEnergy s).lookup ("ARAP") = some ((arapSpecSum s : ℝ) : EReal)
        ∧ (computeEnergy s).lookup ("Rotation")
            = some ((s.rho_ / 2
                * ∑ v ∈ Finset.range s.n, sqFrobM (s.rotations_ v - s.S_ v) : ℝ) : EReal)
        ∧ (computeEnergy s).lookup ("Total")
            = some ((arapSpecSum s
                + s.rho_ / 2
                  * ∑ v ∈ Finset.range s.n, sqFrobM (s.rotations_ v - s.S_ v) : ℝ) : EReal)))
    ∧ ((∃ v ∈ Finset.range s.n, ¬IsSO3 (s.S_ v)) →
      (computeEnergy s).lookup ("Total") = some (⊤ : EReal)) := by
  constructor
  · intro h
    have hne : ¬∃ v ∈ Finset.range s.n, ¬IsSO3 (s.S_ v) := by
      push_neg
      exact h
    rw [computeEnergy, if_neg hne, arapEnergy_eq_spec, rotationEnergy_comm]
    exact ⟨rfl, rfl, rfl⟩
  · intro h
    rw [computeEnergy, if_pos h]
    rfl

theorem sqFrobM_nonneg (A : Mat3) : 0 ≤ sqFrobM A := by
  apply Finset.sum_nonneg
  intro i _
  apply Finset.sum_nonneg
  intro j _
  positivity

theorem sqFrobM_zero : sqFrobM (0 : Mat3) = 0 := by
  simp [sqFrobM]

theorem sqFrobM_neg (A : Mat3) : sqFrobM (-A) = sqFrobM A := by
  unfold sqFrobM
  apply Finset.sum_congr rfl
  intro i _
  apply Finset.sum_congr rfl
  intro j _
  rw [Matrix.neg_apply, neg_sq]

theorem SO3_one : SO3 (1 : Mat3) := by
  constructor
  · rw [Matrix.transpose_one, Matrix.one_mul]
  · exact Matrix.det_one

theorem SO3_isSO3 {M : Mat3} (h : SO3 M) : IsSO3 M := by
  have hmul : M * M.transpose = 1 := Matrix.mul_eq_one_comm.mp h.1
  constructor
  · rw [hmul, sub_self, sqFrobM_zero]
    norm_num [kMatrixDiffThreshold]
  · rw [h.2, sub_self, abs_zero]
    norm_num [kMatrixDiffThreshold]

theorem closestRotation_one : IsClosestRotation (1 : Mat3) (1 : Mat3) := by
  refine ⟨SO3_one, ?_⟩
  intro Q _
  rw [sub_self, sqFrobM_zero]
  exact sqFrobM_nonneg _

/-- Witness for C2: on the demo state all `S_v` are the identity, which
passes the `IsSO3` test, so the "Total" energy entry is as stated. -/
theorem claim_C2_compute_energy_witness :
    (computeEnergy demoState).lookup ("Total")
      = some ((arapSpecSum demoState
          + demoState.rho_ / 2
            * ∑ v ∈ Finset.range demoState.n,
                sqFrobM (demoState.rotations_ v - demoState.S_ v) : ℝ) : EReal) :=
  ((claim_C2_compute_energy demoState).1 (fun _ _ => SO3_isSO3 SO3_one)).2.2

/-- Claim C3: the augmented energy `ComputeSVDSolveEnergy` evaluated right
after the orthogonal-projection step is at most the value right before it
plus the `0.02` tolerance, for every reachable state (old projected
rotations in `SO(3)`, new ones produced by the closest-rotation contract
applied to `R_v + T_v`). -/
theorem claim_C3_svd_energy_monotone (n : ℕ) (rho : ℝ) (R T Sold Snew : ℕ → Mat3)
    (hrho : 0 ≤ rho)
    (hold : ∀ v ∈ Finset.range n, SO3 (Sold v))
    (hnew : ∀ v ∈ Finset.range n, IsClosestRotation (Snew v) (R v + T v)) :
    computeSVDSolveEnergy n R Snew T rho
      ≤ computeSVDSolveEnergy n R Sold T rho + ((kEnergyTolerance : ℝ) : EReal) := by
  have h1 : ¬∃ v ∈ Finset.range n, ¬IsSO3 (Snew v) := by
    push_neg
    exact fun v hv => SO3_isSO3 (hnew v hv).1
  have h2 : ¬∃ v ∈ Finset.range n, ¬IsSO3 (Sold v) := by
    push_neg
    exact fun v hv => SO3_isSO3 (hold v hv)
  rw [computeSVDSolveEnergy, computeSVDSolveEnergy, if_neg h1, if_neg h2, ← EReal.coe_add,
    EReal.coe_le_coe_iff]
  have key : (∑ v ∈ Finset.range n, sqFrobM (R v - Snew v + T v))
      ≤ ∑ v ∈ Finset.range n, sqFrobM (R v - Sold v + T v) := by
    apply Finset.sum_le_sum
    intro v hv
    have e1 : R v - Snew v + T v = -(Snew v - (R v + T v)) := by abel
    have e2 : R v - Sold v + T v = -(Sold v - (R v + T v)) := by abel
    rw [e1, e2, sqFrobM_neg, sqFrobM_neg]
    exact (hnew v hv).2 (Sold v) (hold v hv)
  have htol : (0 : ℝ) ≤ kEnergyTolerance := by norm_num [kEnergyTolerance]
  have hmul : (∑ v ∈ Finset.range n, sqFrobM (R v - Snew v + T v)) * (rho / 2)
      ≤ (∑ v ∈ Finset.range n, sqFrobM (R v - Sold v + T v)) * (rho / 2) :=
    mul_le_mul_of_nonneg_right key (by linarith)
  linarith

/-- Witness for C3: all of `R`, `T`, old `S`, new `S` at the identity /
zero on one vertex with `rho = 1`; the identity is its own closest rotation
and the inequality holds. -/
theorem claim_C3_svd_energy_monotone_witness :
    computeSVDSolveEnergy 1 (fun _ => (1 : Mat3)) (fun _ => (1 : Mat3))
        (fun _ => (0 : Mat3)) 1
      ≤ computeSVDSolveEnergy 1 (fun _ => (1 : Mat3)) (fun _ => (1 : Mat3))
          (fun _ => (0 : Mat3)) 1 + ((kEnergyTolerance : ℝ) : EReal) := by
  refine claim_C3_svd_energy_monotone 1 1 (fun _ => (1 : Mat3)) (fun _ => (0 : Mat3))
    (fun _ => (1 : Mat3)) (fun _ => (1 : Mat3)) (by norm_num) (fun v _ => SO3_one) ?_
  intro v _
  show IsClosestRotation 1 ((1 : Mat3) + 0)
  rw [add_zero]
  exact closestRotation_one

theorem vtype_total (fixed : List ℕ) (v : ℕ) :
    vtype fixed v = VertexType.Free ∨ vtype fixed v = VertexType.Fixed := by
  unfold vtype
  split_ifs <;> simp

theorem filter_map_sum {α : Type} (l : List α) (p : α → Bool) (g : α → ℝ) :
    ((l.filter p).map g).sum = (l.map (fun x => if p x = true then g x else 0)).sum := by
  induction l with
  | nil => simp
  | cons a rest ih =>
    by_cases h : p a = true <;> simp [List.filter_cons, h, ih]

theorem edgeRhsContrib_filter (s : SolverState) (p : ℕ × ℕ) (i : ℕ) (c : Fin 3) :
    edgeRhsContrib s p.1 p.2 i c
      = if vtype s.fixed_ p.1 = VertexType.Fixed ∨ vtype s.fixed_ p.2 = VertexType.Fixed
        then rhsSpecTerm s p i c else 0 := by
  unfold edgeRhsContrib rhsSpecTerm
  by_cases h : vtype s.fixed_ p.1 = VertexType.Fixed ∨ vtype s.fixed_ p.2 = VertexType.Fixed
  · have hng : ¬(vtype s.fixed_ p.1 = VertexType.Free
        ∧ vtype s.fixed_ p.2 = VertexType.Free) := by
      rintro ⟨h1, h2⟩
      rcases h with h3 | h3
      · rw [h1] at h3; exact VertexType.noConfusion h3
      · rw [h2] at h3; exact VertexType.noConfusion h3
    rw [if_neg hng, if_pos h]
  · push_neg at h
    have h1 : vtype s.fixed_ p.1 = VertexType.Free :=
      (vtype_total s.fixed_ p.1).resolve_right h.1
    have h2 : vtype s.fixed_ p.2 = VertexType.Free :=
      (vtype_total s.fixed_ p.2).resolve_right h.2
    rw [if_pos ⟨h1, h2⟩, if_neg (by push_neg; exact ⟨h.1, h.2⟩)]

theorem buildRhs_eq_rhsSpec (s : SolverState) (i : ℕ) (c : Fin 3) :
    buildRhs s i c = rhsSpec s i c := by
  unfold buildRhs rhsSpec
  congr 1
  have step1 : (s.faces_.map (fun F =>
      ∑ e : Fin 3, edgeRhsContrib s (F (edgeFirst e)) (F (edgeSecond e)) i c)).sum
      = ((directedEdges s.faces_).map
          (fun pr => edgeRhsContrib s pr.1 pr.2 i c)).sum := by
    rw [directedEdges_map_sum]
    congr 1
    apply List.map_congr_left
    intro F _
    rw [Fin.sum_univ_three,
      show edgeFirst 0 = 1 from rfl, show edgeSecond 0 = 2 from rfl,
      show edgeFirst 1 = 2 from rfl, show edgeSecond 1 = 0 from rfl,
      show edgeFirst 2 = 0 from rfl, show edgeSecond 2 = 1 from rfl]
  rw [step1, filter_map_sum]
  congr 1
  apply List.map_congr_left
  intro pr _
  rw [edgeRhsContrib_filter]
  by_cases h : vtype s.fixed_ pr.1 = VertexType.Fixed ∨ vtype s.fixed_ pr.2 = VertexType.Fixed
  · rw [if_pos h, if_pos (by simpa using h)]
  · rw [if_neg h, if_neg (by simpa using h)]

theorem solveOneIteration_ok {s : SolverState} {sol : ℕ → Fin 3 → ℝ} {solRows : ℕ}
    {polar : Mat3 → Mat3} {s2 : SolverState}
    (h : solveOneIteration s sol solRows polar = some s2) :
    solRows = s.freeNum + 3 * s.n
    ∧ resSq s (buildRhs s) sol ≤ kMatrixDiffThreshold
    ∧ s2.vertices_updated_
        = enforceRows s.vertices_updated_ (freeList s.n s.fixed_) (fun i c => sol i c) 0
    ∧ (∀ v, v < s.n → s2.rotations_ v = rotBlockOf s sol v)
    ∧ (∀ v, v < s.n → s2.S_ v = polar (rotBlockOf s sol v + s.T_ v))
    ∧ (∀ v, v < s.n → s2.T_ v = s.T_ v + (rotBlockOf s sol v - s2.S_ v)) := by
  simp only [solveOneIteration] at h
  by_cases h1 : solRows ≠ s.freeNum + 3 * s.n
  · rw [if_pos h1] at h
    exact absurd h (by simp)
  · rw [if_neg h1] at h
    by_cases h2 : resSq s (buildRhs s) sol > kMatrixDiffThreshold
    · rw [if_pos h2] at h
      exact absurd h (by simp)
    · rw [if_neg h2] at h
      have hs2 : s2 = _ := (Option.some.inj h).symm
      subst hs2
      refine ⟨not_not.mp h1, not_lt.mp h2, rfl, ?_, ?_, ?_⟩
      · intro v hv
        simp only [if_pos hv]
      · intro v hv
        simp only [if_pos hv]
      · intro v hv
        simp only [if_pos hv]

/-- Claim C4: each `SolveOneIteration` builds the right-hand side as the
per-vertex rotation blocks `rho (S_v - T_v)ᵀ` plus edge terms only from
directed edges with a `Fixed` endpoint; after the solve it writes the
free-vertex rows into the updated positions and the transposed 3x3 blocks
into `R`; each `S_v` becomes the closest proper rotation to `R_v + T_v`,
and finally `T_v` becomes `T_v + R_v - S_v`. -/
theorem claim_C4_iteration_step (s : SolverState) (sol : ℕ → Fin 3 → ℝ) (solRows : ℕ)
    (polar : Mat3 → Mat3) (s2 : SolverState)
    (hpolar : ∀ v, v < s.n →
      IsClosestRotation (polar (rotBlockOf s sol v + s.T_ v)) (rotBlockOf s sol v + s.T_ v))
    (hrun : solveOneIteration s sol solRows polar = some s2) :
    (∀ i c, buildRhs s i c = rhsSpec s i c)
    ∧ (∀ v, v < s.n → vtype s.fixed_ v = VertexType.Free →
        s2.vertices_updated_ v = fun c => sol (vpos s.n s.fixed_ v) c)
    ∧ (∀ v, v < s.n → s2.rotations_ v = rotBlockOf s sol v)
    ∧ (∀ v, v < s.n → IsClosestRotation (s2.S_ v) (s2.rotations_ v + s.T_ v))
    ∧ (∀ v, v < s.n → s2.T_ v = s.T_ v + s2.rotations_ v - s2.S_ v) := by
  obtain ⟨hrows, hres, hupd, hrot, hS, hT⟩ := solveOneIteration_ok hrun
  refine ⟨buildRhs_eq_rhsSpec s, ?_, hrot, ?_, ?_⟩
  · intro v hv hfree
    have hmem : v ∈ freeList s.n s.fixed_ :=
      mem_freeList.mpr ⟨hv, vtype_free_iff.mp hfree⟩
    rw [hupd, enforceRows_eval _ (freeList_nodup _ _), if_pos hmem, Nat.zero_add,
      vpos_free_eq (vtype_free_iff.mp hfree)]
  · intro v hv
    rw [hS v hv, hrot v hv]
    exact hpolar v hv
  · intro v hv
    rw [hT v hv, hrot v hv]
    abel

/-- Claim C8 (amended): a completed `SolveOneIteration` implies that the
solution row count equals the unknown count `freeNum + 3 n` and that the
solve residual `||M x - rhs||^2` is at most `1e-6`. -/
theorem claim_C8_solve_checks (s : SolverState) (sol : ℕ → Fin 3 → ℝ) (solRows : ℕ)
    (polar : Mat3 → Mat3) (s2 : SolverState)
    (hrun : solveOneIteration s sol solRows polar = some s2) :
    solRows = s.freeNum + 3 * s.n
      ∧ resSq s (buildRhs s) sol ≤ kMatrixDiffThreshold :=
  ⟨(solveOneIteration_ok hrun).1, (solveOneIteration_ok hrun).2.1⟩

theorem demoRhs_eval (i : ℕ) (c : Fin 3) :
    buildRhs demoState i c = if i = 1 + (c : ℕ) then 1 else 0 := by
  unfold buildRhs rhsRotPart
  rw [show demoState.faces_ = [] from rfl]
  simp only [List.map_nil, List.sum_nil, add_zero]
  rw [show demoState.n = 1 from rfl, Finset.sum_range_one, Fin.sum_univ_three]
  simp only [show demoState.freeNum = 1 from rfl, show demoState.rho_ = (1 : ℝ) from rfl,
    show demoState.S_ 0 = (1 : Mat3) from rfl, show demoState.T_ 0 = (0 : Mat3) from rfl,
    sub_zero, Matrix.transpose_one, Matrix.one_apply, fin3_val0, fin3_val1, fin3_val2,
    one_mul, Nat.mul_zero, Nat.add_zero]
  fin_cases c <;> norm_num [Fin.ext_iff]

theorem demoM_eval (i j : ℕ) :
    demoState.M_ i j
      = (if i = 1 ∧ j = 1 then 1 else 0) + (if i = 2 ∧ j = 2 then 1 else 0)
        + (if i = 3 ∧ j = 3 then (1 : ℝ) else 0) := by
  show assembleM1 demoMesh (weightMatrix demoMesh) 1 i j = _
  unfold assembleM1
  rw [show demoMesh.faces = [] from rfl]
  simp only [List.map_nil, List.sum_nil, add_zero,
    show demoMesh.freeNum = 1 from rfl, show demoMesh.n = 1 from rfl]
  rw [show (3 * 1 : ℕ) = 3 from rfl, Finset.sum_range_succ, Finset.sum_range_succ,
    Finset.sum_range_succ, Finset.sum_range_zero]
  norm_num

theorem demo_resSq_sol : resSq demoState (buildRhs demoState) demoSol = 0 := by
  unfold resSq
  simp only [show demoState.freeNum = 1 from rfl, show demoState.n = 1 from rfl]
  rw [show (1 + 3 * 1 : ℕ) = 4 from rfl]
  simp only [Finset.sum_range_succ, Finset.sum_range_zero, Fin.sum_univ_three,
    demoM_eval, demoRhs_eval, demoSol, fin3_val0, fin3_val1, fin3_val2]
  norm_num

theorem demo_resSq_pert :
    resSq demoState (buildRhs demoState) demoSolPert = 1 / 1000000 := by
  unfold resSq
  simp only [show demoState.freeNum = 1 from rfl, show demoState.n = 1 from rfl]
  rw [show (1 + 3 * 1 : ℕ) = 4 from rfl]
  simp only [Finset.sum_range_succ, Finset.sum_range_zero, Fin.sum_univ_three,
    demoM_eval, demoRhs_eval, demoSolPert, fin3_val0, fin3_val1, fin3_val2]
  norm_num

theorem demo_run_sol : ∃ s2, solveOneIteration demoState demoSol 4 demoPolar = some s2 := by
  have h : (solveOneIteration demoState demoSol 4 demoPolar).isSome = true := by
    simp only [solveOneIteration]
    rw [if_neg (show ¬(4 ≠ demoState.freeNum + 3 * demoState.n) from by
        norm_num [show demoState.freeNum = 1 from rfl, show demoState.n = 1 from rfl]),
      if_neg (show ¬(resSq demoState (buildRhs demoState) demoSol > kMatrixDiffThreshold) from by
        rw [demo_resSq_sol]
        norm_num [kMatrixDiffThreshold])]
    rfl
  exact Option.isSome_iff_exists.mp h

theorem demo_run_pert :
    ∃ s2, solveOneIteration demoState demoSolPert 4 demoPolar = some s2 := by
  have h : (solveOneIteration demoState demoSolPert 4 demoPolar).isSome = true := by
    simp only [solveOneIteration]
    rw [if_neg (show ¬(4 ≠ demoState.freeNum + 3 * demoState.n) from by
        norm_num [show demoState.freeNum = 1 from rfl, show demoState.n = 1 from rfl]),
      if_neg (show ¬(resSq demoState (buildRhs demoState) demoSolPert > kMatrixDiffThreshold) from by
        rw [demo_resSq_pert]
        norm_num [kMatrixDiffThreshold])]
    rfl
  exact Option.isSome_iff_exists.mp h

/-- Witness for C4: on the demo state the exact solution completes the
iteration and the dual update relation holds, with the closest-rotation
contract discharged at the identity. -/
theorem claim_C4_iteration_step_witness :
    ∃ s2, solveOneIteration demoState demoSol 4 demoPolar = some s2
      ∧ ∀ v, v < demoState.n → s2.T_ v = demoState.T_ v + s2.rotations_ v - s2.S_ v := by
  obtain ⟨s2, h⟩ := demo_run_sol
  have hrb : rotBlockOf demoState demoSol 0 = (1 : Mat3) := by
    funext a b
    show demoSol (demoState.freeNum + 3 * 0 + (b : ℕ)) a = _
    rw [show demoState.freeNum = 1 from rfl]
    unfold demoSol
    rw [Matrix.one_apply]
    fin_cases a <;> fin_cases b <;> norm_num [Fin.ext_iff]
  have hpol : ∀ v, v < demoState.n →
      IsClosestRotation (demoPolar (rotBlockOf demoState demoSol v + demoState.T_ v))
        (rotBlockOf demoState demoSol v + demoState.T_ v) := by
    intro v hv
    have hn1 : demoState.n = 1 := rfl
    have hv0 : v = 0 := by omega
    subst hv0
    rw [hrb, show demoState.T_ 0 = (0 : Mat3) from rfl, add_zero]
    exact closestRotation_one
  exact ⟨s2, h, (claim_C4_iteration_step demoState demoSol 4 demoPolar s2 hpol h).2.2.2.2⟩

/-- Witness for C8: the demo run with the exact solution completes, and the
theorem yields the row-count identity and the residual bound there. -/
theorem claim_C8_solve_checks_witness :
    4 = demoState.freeNum + 3 * demoState.n
      ∧ resSq demoState (buildRhs demoState) demoSol ≤ kMatrixDiffThreshold := by
  obtain ⟨s2, h⟩ := demo_run_sol
  exact claim_C8_solve_checks demoState demoSol 4 demoPolar s2 h

/-- Counterexample for C8 as stated: a completed `SolveOneIteration` whose
residual squared norm is exactly `1e-6` — the `> 1e-6` fatal check passes,
yet the residual is not strictly below `1e-6`. -/
theorem claim_C8_below_counterexample :
    (∃ s2, solveOneIteration demoState demoSolPert 4 demoPolar = some s2)
    ∧ ¬ resSq demoState (buildRhs demoState) demoSolPert < kMatrixDiffThreshold := by
  refine ⟨demo_run_pert, ?_⟩
  rw [demo_resSq_pert]
  norm_num [kMatrixDiffThreshold]

end ArapAdmm
